import Mathlib

/-!
# Statistics Helper — verification of the schema/statistics core

Shallow embedding of the repository's statistics engine
(`calculateStatistics` / `getMedian` in the Express backend) and of the
submission-time validation loop (`handleSubmit` in the DataEntry
component).  JavaScript numbers are modelled as `JSNum`
(NaN / signed infinity / finite rational); JavaScript record values as
`JSVal`.  The downstream arithmetic idealises IEEE doubles by exact
rationals while keeping the NaN/infinity propagation rules, which is what
the claims about inclusion of non-finite parses need.
-/

namespace StatsHelper

/-- A JavaScript number: NaN, an infinity (`inf true` is `-Infinity`,
`inf false` is `+Infinity`), or a finite value (idealised as an exact
rational instead of a 64-bit double). -/
inductive JSNum where
  | nan : JSNum
  | inf : Bool → JSNum
  | fin : ℚ → JSNum
deriving DecidableEq

/-- The `isNaN(v)` test on a JavaScript number. -/
def JSNum.isNaN : JSNum → Bool
  | .nan => true
  | _ => false

/-- A JavaScript value as it can occur in a record's `data` object after
`JSON.parse` (the entry form only produces strings and numbers; `null`,
booleans and `undefined` are kept for the access/truthiness semantics). -/
inductive JSVal where
  | undefined : JSVal
  | null : JSVal
  | bool : Bool → JSVal
  | num : JSNum → JSVal
  | str : String → JSVal
deriving DecidableEq

/-- IEEE negation of a JavaScript number. -/
def jneg : JSNum → JSNum
  | .nan => .nan
  | .inf s => .inf (!s)
  | .fin a => .fin (-a)

/-- IEEE addition (`a + b`): NaN propagates, opposite infinities give NaN. -/
def jadd : JSNum → JSNum → JSNum
  | .nan, _ => .nan
  | _, .nan => .nan
  | .inf s, .inf t => if s = t then .inf s else .nan
  | .inf s, .fin _ => .inf s
  | .fin _, .inf s => .inf s
  | .fin a, .fin b => .fin (a + b)

/-- IEEE subtraction: `a - b = a + (-b)`. -/
def jsub (a b : JSNum) : JSNum := jadd a (jneg b)

/-- IEEE multiplication: NaN propagates, `∞ * 0 = NaN`. -/
def jmul : JSNum → JSNum → JSNum
  | .nan, _ => .nan
  | _, .nan => .nan
  | .inf s, .inf t => .inf (xor s t)
  | .inf s, .fin b => if b = 0 then .nan else .inf (xor s (decide (b < 0)))
  | .fin a, .inf t => if a = 0 then .nan else .inf (xor t (decide (a < 0)))
  | .fin a, .fin b => .fin (a * b)

/-- The square `Math.pow(x, 2)`, which for these arguments is `x * x`. -/
def jsq (x : JSNum) : JSNum := jmul x x

/-- IEEE division: NaN propagates, `∞/∞ = NaN`, `x/∞ = 0`,
finite `x/0` is a signed infinity (NaN for `0/0`).  The statistics code
only ever divides by a positive finite count. -/
def jdiv : JSNum → JSNum → JSNum
  | .nan, _ => .nan
  | _, .nan => .nan
  | .inf _, .inf _ => .nan
  | .inf s, .fin b => .inf (xor s (decide (b < 0)))
  | .fin _, .inf _ => .fin 0
  | .fin a, .fin b =>
      if b = 0 then (if a = 0 then .nan else .inf (decide (a < 0))) else .fin (a / b)

/-- The order in which the comparator `(a, b) => a - b` sorts JavaScript
numbers: `-Infinity`, then finite values ascending, then `+Infinity`.
NaN never reaches the sort (it is filtered out first); it is placed last
here only so that the relation is total, which the sortedness lemmas
need. -/
def jsSortLe : JSNum → JSNum → Bool
  | _, .nan => true
  | .nan, _ => false
  | .inf true, _ => true
  | _, .inf false => true
  | .inf false, _ => false
  | _, .inf true => false
  | .fin a, .fin b => a ≤ b

/-- IEEE `<=` on JavaScript numbers: any comparison involving NaN is
false; otherwise `-Infinity ≤ x ≤ +Infinity` and finite values compare
as rationals.  Used to state the reported-value inequalities. -/
def jsLe : JSNum → JSNum → Bool
  | .nan, _ => false
  | _, .nan => false
  | .inf true, _ => true
  | _, .inf false => true
  | .inf false, _ => false
  | _, .inf true => false
  | .fin a, .fin b => a ≤ b

/-- The comparator order as a `Prop`-valued relation, used as the sort
order.  `Array.prototype.sort` is a stable sort by this order; the model
uses insertion sort, which produces the identical output list. -/
def sle (a b : JSNum) : Prop := jsSortLe a b = true

instance : DecidableRel sle := fun a b => inferInstanceAs (Decidable (jsSortLe a b = true))

/-- The builtin `Math.min(a, b)`: NaN-absorbing, otherwise the smaller argument. -/
def jmin (a b : JSNum) : JSNum :=
  if a.isNaN || b.isNaN then .nan else if jsSortLe a b then a else b

/-- The builtin `Math.max(a, b)`: NaN-absorbing, otherwise the larger argument. -/
def jmax (a b : JSNum) : JSNum :=
  if a.isNaN || b.isNaN then .nan else if jsSortLe a b then b else a

/-! ## parseFloat

Model of the ECMAScript `parseFloat` builtin as called by
`calculateStatistics`: skip leading whitespace, optional sign, then the
longest prefix that is `Infinity` or a decimal literal
(`digits[.digits][e[±]digits]` or `.digits[e[±]digits]`); if no such
prefix exists the result is NaN.  Overflow of huge exponents to
infinity is not modelled (all inputs of interest are well inside double
range). -/

/-- Decimal digit test. -/
def isDigitChar (c : Char) : Bool := '0' ≤ c && c ≤ '9'

/-- Numeric value of a decimal digit character. -/
def digitVal (c : Char) : ℕ := c.toNat - '0'.toNat

/-- Split a character list into its leading run of decimal digits and
the rest. -/
def takeDigits : List Char → List ℕ × List Char
  | [] => ([], [])
  | c :: cs =>
      if isDigitChar c then
        let p := takeDigits cs
        (digitVal c :: p.1, p.2)
      else ([], c :: cs)

/-- The natural number denoted by a list of decimal digit values. -/
def digitsToNat (ds : List ℕ) : ℕ := ds.foldl (fun acc d => 10 * acc + d) 0

/-- Strip an optional leading sign, returning whether it was `-` and
the remaining characters. -/
def splitSign (cs : List Char) : Bool × List Char :=
  match cs with
  | [] => (false, [])
  | c :: rest =>
      if c = '-' then (true, rest)
      else if c = '+' then (false, rest)
      else (false, c :: rest)

/-- Parse an optional exponent sign followed by digits; an absent or
empty exponent contributes `0` (as in `parseFloat("1e")`). -/
def parseSignedDigits (cs : List Char) : ℤ :=
  let p := splitSign cs
  let ds := (takeDigits p.2).1
  if ds = [] then 0
  else if p.1 then -(digitsToNat ds : ℤ) else (digitsToNat ds : ℤ)

/-- Parse the optional `e`/`E` exponent suffix. -/
def parseExponent (cs : List Char) : ℤ :=
  match cs with
  | [] => 0
  | c :: rest => if c = 'e' ∨ c = 'E' then parseSignedDigits rest else 0

/-- Characters `parseFloat` skips at the front of the string (the
common ASCII subset of ECMAScript whitespace). -/
def isWhitespaceChar (c : Char) : Bool :=
  c = ' ' || c = '\t' || c = '\n' || c = '\r'

/-- The behaviour of `parseFloat` on a string. -/
def parseFloatString (s : String) : JSNum :=
  let cs := s.toList.dropWhile isWhitespaceChar
  let p := splitSign cs
  if p.2.take 8 = "Infinity".toList then JSNum.inf p.1
  else
    let ip := takeDigits p.2
    let fp : List ℕ × List Char :=
      match ip.2 with
      | [] => ([], [])
      | c :: rest => if c = '.' then takeDigits rest else ([], c :: rest)
    if ip.1 = [] ∧ fp.1 = [] then JSNum.nan
    else
      let mantissa : ℚ :=
        (digitsToNat ip.1 : ℚ) + (digitsToNat fp.1 : ℚ) / ((10 : ℚ) ^ fp.1.length)
      let mag : ℚ := mantissa * (10 : ℚ) ^ parseExponent fp.2
      JSNum.fin (if p.1 then -mag else mag)

/-- The behaviour of `parseFloat` on an arbitrary JavaScript value: the value is first
converted to a string (`undefined` → `"undefined"`, `null` → `"null"`,
booleans → `"true"/"false"`, all of which parse to NaN; a number
round-trips through its decimal representation, so it is returned
unchanged). -/
def parseFloat : JSVal → JSNum
  | .undefined => .nan
  | .null => .nan
  | .bool _ => .nan
  | .num x => x
  | .str s => parseFloatString s

/-! ## Records, fields and the statistics engine -/

/-- A record's `data` object after `JSON.parse`: a finite mapping from
property names to values, modelled as an association list (first match
wins, as in an object literal with distinct keys). -/
def RecData := List (String × JSVal)

instance : DecidableEq RecData := by
  unfold RecData
  infer_instance

/-- JavaScript property access `item[name]`: the stored value, or
`undefined` when the key is absent. -/
def getProp (item : RecData) (name : String) : JSVal :=
  match item.find? (fun p => p.1 == name) with
  | some p => p.2
  | none => .undefined

/-- The closed set of field types of the schema designer. -/
inductive FieldType where
  | text : FieldType
  | number : FieldType
  | date : FieldType
  | select : FieldType
deriving DecidableEq

/-- A field descriptor as produced by the SchemaDesigner component
(`{ name, type, options?, required }`). -/
structure Field where
  name : String
  type : FieldType
  options : Option (List String) := none
  required : Bool
deriving DecidableEq

/-- The per-field summary object built by `calculateStatistics`.  The
source also stores `standardDeviation: Math.sqrt(variance)`; being the
(generally irrational) square root of `variance` it is omitted from the
structure and treated as determined by the `variance` field. -/
structure Summary where
  count : ℕ
  mean : JSNum
  median : JSNum
  min : JSNum
  max : JSNum
  variance : JSNum
deriving DecidableEq

/-- The function `getMedian(sortedValues)` from the source: the middle element for
odd length, the average of the two middle elements for even length.
An out-of-range index yields `undefined`, which behaves as NaN in the
ensuing arithmetic, hence the NaN default. -/
def getMedian (sortedValues : List JSNum) : JSNum :=
  let mid := sortedValues.length / 2
  if sortedValues.length % 2 ≠ 0 then sortedValues.getD mid .nan
  else jdiv (jadd (sortedValues.getD (mid - 1) .nan) (sortedValues.getD mid .nan)) (.fin 2)

/-- The value-extraction step of `calculateStatistics` for one field
name: map `parseFloat(item[field.name])` over all records, then
`filter(v => !isNaN(v) && v !== null && v !== undefined)`.  The last
two conjuncts are identically true — `parseFloat` always returns a
number — so the filter keeps exactly the non-NaN parses. -/
def includedValues (name : String) (data : List RecData) : List JSNum :=
  (data.map (fun item => parseFloat (getProp item name))).filter (fun v => !v.isNaN)

/-- The body of the `if (values.length > 0)` branch of
`calculateStatistics`.  `values.sort((a, b) => a - b)` sorts the array
in place, so the subsequent `values.reduce` folds for the mean and the
variance, `Math.min(...values)` and `Math.max(...values)` all run over
the sorted array (`sortedValues` aliases `values`). -/
def summarize (values : List JSNum) : Summary :=
  let sortedValues := List.insertionSort sle values
  let mean := jdiv (sortedValues.foldl jadd (.fin 0)) (.fin (values.length : ℚ))
  let variance :=
    jdiv (sortedValues.foldl (fun a b => jadd a (jsq (jsub b mean))) (.fin 0))
      (.fin (values.length : ℚ))
  { count := values.length
    mean := mean
    median := getMedian sortedValues
    min := sortedValues.foldl jmin (.inf false)
    max := sortedValues.foldl jmax (.inf true)
    variance := variance }

/-- The per-field action of the `fields.forEach` loop in
`calculateStatistics`: only `number` fields are summarised, and only
when at least one usable value survived the filter. -/
def fieldStats (field : Field) (data : List RecData) : Option Summary :=
  if field.type = FieldType.number then
    let values := includedValues field.name data
    if 0 < values.length then some (summarize values) else none
  else none

/-- The function `calculateStatistics(data, fields)`: the `stats` object, modelled as
the association list of `(field.name, summary)` entries produced in
field order (field names are unique within a schema). -/
def calculateStatistics (data : List RecData) (fields : List Field) :
    List (String × Summary) :=
  fields.filterMap (fun field => (fieldStats field data).map (fun s => (field.name, s)))

/-- Lookup of a field name in the result object. -/
def statLookup : List (String × Summary) → String → Option Summary
  | [], _ => none
  | p :: rest, name => if p.1 == name then some p.2 else statLookup rest name

/-! ## Submission-time validation -/

/-- JavaScript truthiness of a value, as tested by
`!formData[field.name]`: `undefined`, `null`, `false`, NaN, `0` and the
empty string are falsy, everything else is truthy. -/
def truthy : JSVal → Bool
  | .undefined => false
  | .null => false
  | .bool b => b
  | .num .nan => false
  | .num (.fin q) => !(q == 0)
  | .num (.inf _) => true
  | .str s => !(s == "")

/-- The validation loop of `handleSubmit` in the DataEntry component:
iterate over the schema's fields and, at the first field that is
`required` and whose form value is falsy, alert `"<name> is required"`
and abort (`some name`); if no field trips the check the entry is
submitted to `POST /api/entries`, which performs no validation of its
own (`none`). -/
def handleSubmit (fields : List Field) (formData : RecData) : Option String :=
  match fields with
  | [] => none
  | field :: rest =>
      if field.required && !truthy (getProp formData field.name) then some field.name
      else handleSubmit rest formData

/-! ## Spec-side definitions (for refinement comparisons)

These follow the specification's words, to be compared with the
definitions above that were translated from the source. -/

/-- Modelled from the spec: the arithmetic mean of a list of values. -/
def ratMean (l : List ℚ) : ℚ := l.sum / l.length

/-- Modelled from the spec: population variance — the mean of squared
deviations from the arithmetic mean, dividing by `n` (not `n - 1`). -/
def popVariance (l : List ℚ) : ℚ :=
  ((l.map (fun x => (x - ratMean l) ^ 2)).sum) / l.length

/-- Ascending order on the rationals, named for use as a sort order. -/
def qle (a b : ℚ) : Prop := a ≤ b

instance : DecidableRel qle := fun a b => inferInstanceAs (Decidable (a ≤ b))

/-- Modelled from the spec: sort ascending; for odd `n` take the middle
element (0-based index `n / 2`); for even `n` take the arithmetic mean
of the elements at 0-based indices `n / 2 - 1` and `n / 2`. -/
def specMedian (l : List ℚ) : ℚ :=
  let s := List.insertionSort qle l
  if l.length % 2 = 1 then s.getD (l.length / 2) 0
  else (s.getD (l.length / 2 - 1) 0 + s.getD (l.length / 2) 0) / 2

/-- Modelled from the spec: the complete set of per-field validation
failures — every field that is `required` and whose supplied value is
unusable (the check the source actually implements is the truthiness
test). -/
def specFailingFields (fields : List Field) (formData : RecData) : List String :=
  (fields.filter (fun f => f.required && !truthy (getProp formData f.name))).map Field.name

/-! ## Order lemmas for the sort comparator -/

theorem jsSortLe_trans (a b c : JSNum) (h₁ : jsSortLe a b) (h₂ : jsSortLe b c) :
    jsSortLe a c := by
  rcases a with _ | sa | qa <;> rcases b with _ | sb | qb <;> rcases c with _ | sc | qc <;>
    first
      | rfl
      | (rcases sa with _ | _ <;> rcases sb with _ | _ <;> rcases sc with _ | _ <;>
          simp_all [jsSortLe])
      | (try rcases sa with _ | _) <;> (try rcases sb with _ | _) <;>
          (try rcases sc with _ | _) <;> simp_all [jsSortLe] <;> exact le_trans h₁ h₂

theorem jsSortLe_total (a b : JSNum) : jsSortLe a b || jsSortLe b a := by
  rcases a with _ | sa | qa <;> rcases b with _ | sb | qb <;>
    (try rcases sa with _ | _) <;> (try rcases sb with _ | _) <;>
    simp_all [jsSortLe] <;> exact le_total qa qb

theorem jsSortLe_antisymm (a b : JSNum) (h₁ : jsSortLe a b) (h₂ : jsSortLe b a) :
    a = b := by
  rcases a with _ | sa | qa <;> rcases b with _ | sb | qb <;>
    (try rcases sa with _ | _) <;> (try rcases sb with _ | _) <;>
    simp_all [jsSortLe] <;> exact le_antisymm h₁ h₂

instance : IsAntisymm JSNum sle := ⟨jsSortLe_antisymm⟩

instance : IsTrans JSNum sle := ⟨jsSortLe_trans⟩

instance : IsTotal JSNum sle :=
  ⟨fun a b => by
    have h := jsSortLe_total a b
    rw [Bool.or_eq_true] at h
    exact h⟩

instance : IsTotal ℚ qle := ⟨fun a b => le_total a b⟩

instance : IsTrans ℚ qle := ⟨fun _ _ _ => le_trans⟩

instance : IsAntisymm ℚ qle := ⟨fun _ _ => le_antisymm⟩

/-- The result of sorting depends only on the multiset of elements. -/
theorem insertionSort_eq_of_perm {l₁ l₂ : List JSNum} (h : l₁.Perm l₂) :
    List.insertionSort sle l₁ = List.insertionSort sle l₂ := by
  exact @List.eq_of_perm_of_sorted JSNum sle _ _ _
    (((List.perm_insertionSort sle l₁).trans h).trans (List.perm_insertionSort sle l₂).symm)
    (List.sorted_insertionSort sle l₁) (List.sorted_insertionSort sle l₂)

/-! ## Computation lemmas for finite values -/

theorem jadd_fin (a b : ℚ) : jadd (.fin a) (.fin b) = .fin (a + b) := rfl

theorem jsub_fin (a b : ℚ) : jsub (.fin a) (.fin b) = .fin (a - b) := by
  simp [jsub, jneg, jadd, sub_eq_add_neg]

theorem jsq_fin (a : ℚ) : jsq (.fin a) = .fin (a ^ 2) := by
  simp [jsq, jmul, sq]

theorem jdiv_fin (a b : ℚ) (hb : b ≠ 0) : jdiv (.fin a) (.fin b) = .fin (a / b) := by
  simp [jdiv, hb]

theorem jsSortLe_fin (a b : ℚ) : jsSortLe (.fin a) (.fin b) = decide (a ≤ b) := rfl

theorem jsLe_fin (a b : ℚ) : jsLe (.fin a) (.fin b) = decide (a ≤ b) := rfl

theorem foldl_jadd_map_fin (l : List ℚ) (c : ℚ) :
    (l.map JSNum.fin).foldl jadd (.fin c) = .fin (c + l.sum) := by
  induction l generalizing c with
  | nil => simp
  | cons x xs ih => simp [jadd_fin, ih, add_assoc]

theorem foldl_var_map_fin (l : List ℚ) (c μ : ℚ) :
    (l.map JSNum.fin).foldl (fun a b => jadd a (jsq (jsub b (.fin μ)))) (.fin c) =
      .fin (c + (l.map (fun x => (x - μ) ^ 2)).sum) := by
  induction l generalizing c with
  | nil => simp
  | cons x xs ih => simp [jsub_fin, jsq_fin, jadd_fin, ih, add_assoc]

theorem jmin_fin (a b : ℚ) : jmin (.fin a) (.fin b) = .fin (min a b) := by
  by_cases h : a ≤ b
  · simp [jmin, JSNum.isNaN, jsSortLe_fin, h, min_eq_left h]
  · simp [jmin, JSNum.isNaN, jsSortLe_fin, h, min_eq_right (le_of_not_le h)]

theorem jmax_fin (a b : ℚ) : jmax (.fin a) (.fin b) = .fin (max a b) := by
  by_cases h : a ≤ b
  · simp [jmax, JSNum.isNaN, jsSortLe_fin, h, max_eq_right h]
  · simp [jmax, JSNum.isNaN, jsSortLe_fin, h, max_eq_left (le_of_not_le h)]

theorem jmin_posInf_fin (a : ℚ) : jmin (.inf false) (.fin a) = .fin a := by
  simp [jmin, JSNum.isNaN, jsSortLe]

theorem jmax_negInf_fin (a : ℚ) : jmax (.inf true) (.fin a) = .fin a := by
  simp [jmax, JSNum.isNaN, jsSortLe]

theorem foldl_jmin_map_fin (l : List ℚ) (c : ℚ) :
    (l.map JSNum.fin).foldl jmin (.fin c) = .fin (l.foldl min c) := by
  induction l generalizing c with
  | nil => simp
  | cons x xs ih => simp [jmin_fin, ih]

theorem foldl_jmax_map_fin (l : List ℚ) (c : ℚ) :
    (l.map JSNum.fin).foldl jmax (.fin c) = .fin (l.foldl max c) := by
  induction l generalizing c with
  | nil => simp
  | cons x xs ih => simp [jmax_fin, ih]

/-- Sorting the image of a rational list under `JSNum.fin` is the image
of the rational sort. -/
theorem insertionSort_map_fin (l : List ℚ) :
    List.insertionSort sle (l.map JSNum.fin) = (List.insertionSort qle l).map JSNum.fin := by
  refine @List.eq_of_perm_of_sorted JSNum sle _ _ _
    ((List.perm_insertionSort sle (l.map JSNum.fin)).trans
      ((List.perm_insertionSort qle l).symm.map JSNum.fin))
    (List.sorted_insertionSort sle (l.map JSNum.fin)) ?_
  refine List.Pairwise.map JSNum.fin (fun a b h => ?_) (List.sorted_insertionSort qle l)
  simp only [qle] at h
  simpa [sle, jsSortLe_fin] using h

/-! ## Characterisation of `summarize` on all-finite value lists -/

theorem getD_map_fin (l : List ℚ) (i : ℕ) (hi : i < l.length) :
    (l.map JSNum.fin).getD i .nan = .fin (l.getD i 0) := by
  rw [List.getD_eq_getElem?_getD, List.getD_eq_getElem?_getD, List.getElem?_map,
    List.getElem?_eq_getElem hi]
  rfl

/-- The minimum of a nonempty rational list (`0` for `[]`). -/
def ratMinL : List ℚ → ℚ
  | [] => 0
  | x :: xs => xs.foldl min x

/-- The maximum of a nonempty rational list (`0` for `[]`). -/
def ratMaxL : List ℚ → ℚ
  | [] => 0
  | x :: xs => xs.foldl max x

theorem foldl_min_le_init (l : List ℚ) (c : ℚ) : l.foldl min c ≤ c := by
  induction l generalizing c with
  | nil => simp
  | cons x xs ih => exact le_trans (ih (min c x)) (min_le_left c x)

theorem foldl_min_le_mem (l : List ℚ) (c : ℚ) : ∀ x ∈ l, l.foldl min c ≤ x := by
  induction l generalizing c with
  | nil => simp
  | cons y ys ih =>
      intro x hx
      rcases List.mem_cons.mp hx with h | h
      · subst h
        exact le_trans (foldl_min_le_init ys (min c x)) (min_le_right c x)
      · exact ih (min c y) x h

theorem ratMinL_le (l : List ℚ) : ∀ x ∈ l, ratMinL l ≤ x := by
  cases l with
  | nil => simp
  | cons y ys =>
      intro x hx
      rcases List.mem_cons.mp hx with h | h
      · subst h
        exact foldl_min_le_init ys x
      · exact foldl_min_le_mem ys y x h

theorem init_le_foldl_max (l : List ℚ) (c : ℚ) : c ≤ l.foldl max c := by
  induction l generalizing c with
  | nil => simp
  | cons x xs ih => exact le_trans (le_max_left c x) (ih (max c x))

theorem mem_le_foldl_max (l : List ℚ) (c : ℚ) : ∀ x ∈ l, x ≤ l.foldl max c := by
  induction l generalizing c with
  | nil => simp
  | cons y ys ih =>
      intro x hx
      rcases List.mem_cons.mp hx with h | h
      · subst h
        exact le_trans (le_max_right c x) (init_le_foldl_max ys (max c x))
      · exact ih (max c y) x h

theorem le_ratMaxL (l : List ℚ) : ∀ x ∈ l, x ≤ ratMaxL l := by
  cases l with
  | nil => simp
  | cons y ys =>
      intro x hx
      rcases List.mem_cons.mp hx with h | h
      · subst h
        exact init_le_foldl_max ys x
      · exact mem_le_foldl_max ys y x h

theorem foldl_jmin_inf_map_fin (t : List ℚ) (hne : t ≠ []) :
    (t.map JSNum.fin).foldl jmin (.inf false) = .fin (ratMinL t) := by
  cases t with
  | nil => exact absurd rfl hne
  | cons x xs =>
      simp only [List.map_cons, List.foldl_cons, jmin_posInf_fin, foldl_jmin_map_fin, ratMinL]

theorem foldl_jmax_inf_map_fin (t : List ℚ) (hne : t ≠ []) :
    (t.map JSNum.fin).foldl jmax (.inf true) = .fin (ratMaxL t) := by
  cases t with
  | nil => exact absurd rfl hne
  | cons x xs =>
      simp only [List.map_cons, List.foldl_cons, jmax_negInf_fin, foldl_jmax_map_fin, ratMaxL]

theorem getMedian_map_fin (t : List ℚ) (hne : t ≠ []) :
    getMedian (t.map JSNum.fin) =
      .fin (if t.length % 2 = 1 then t.getD (t.length / 2) 0
            else (t.getD (t.length / 2 - 1) 0 + t.getD (t.length / 2) 0) / 2) := by
  have h0 : 0 < t.length := List.length_pos.mpr hne
  unfold getMedian
  simp only [List.length_map]
  by_cases hpar : t.length % 2 = 1
  · rw [if_pos (by omega : t.length % 2 ≠ 0), if_pos hpar,
      getD_map_fin _ _ (by omega : t.length / 2 < t.length)]
  · rw [if_neg (by omega : ¬t.length % 2 ≠ 0), if_neg hpar,
      getD_map_fin _ _ (by omega : t.length / 2 - 1 < t.length),
      getD_map_fin _ _ (by omega : t.length / 2 < t.length),
      jadd_fin, jdiv_fin _ _ (by norm_num)]

theorem summarize_map_fin (qs : List ℚ) (hne : qs ≠ []) :
    summarize (qs.map JSNum.fin) =
      { count := qs.length
        mean := .fin (ratMean qs)
        median := .fin (specMedian qs)
        min := .fin (ratMinL (List.insertionSort qle qs))
        max := .fin (ratMaxL (List.insertionSort qle qs))
        variance := .fin (popVariance qs) } := by
  have hn0 : 0 < qs.length := List.length_pos.mpr hne
  have hnQ : ((qs.length : ℚ)) ≠ 0 := Nat.cast_ne_zero.mpr (by omega)
  have hperm := List.perm_insertionSort qle qs
  have htlen : (List.insertionSort qle qs).length = qs.length := hperm.length_eq
  have htne : List.insertionSort qle qs ≠ [] := by
    intro h
    have h' := htlen
    rw [h] at h'
    simp only [List.length_nil] at h'
    omega
  have hsum : (List.insertionSort qle qs).sum = qs.sum := hperm.sum_eq
  simp only [summarize]
  rw [insertionSort_map_fin]
  simp only [List.length_map]
  rw [foldl_jadd_map_fin, zero_add, hsum, jdiv_fin _ _ hnQ, foldl_var_map_fin, zero_add,
    jdiv_fin _ _ hnQ, getMedian_map_fin _ htne, foldl_jmin_inf_map_fin _ htne,
    foldl_jmax_inf_map_fin _ htne]
  simp only [Summary.mk.injEq]
  refine ⟨trivial, ?_, ?_, trivial, trivial, ?_⟩
  · simp only [ratMean]
  · simp only [specMedian]
    rw [htlen]
  · simp only [popVariance, ratMean]
    exact congrArg (fun z => JSNum.fin (z / (qs.length : ℚ)))
      ((hperm.map (fun x => (x - qs.sum / (qs.length : ℚ)) ^ 2)).sum_eq)

/-! ## Bounds on mean and median -/

theorem le_ratMean (l : List ℚ) (hne : l ≠ []) (m : ℚ) (h : ∀ x ∈ l, m ≤ x) :
    m ≤ ratMean l := by
  have hn : (0 : ℚ) < l.length := by
    exact_mod_cast List.length_pos.mpr hne
  rw [ratMean, le_div_iff₀ hn]
  calc m * l.length = l.length • m := by rw [nsmul_eq_mul]; ring
    _ ≤ l.sum := List.card_nsmul_le_sum l m h

theorem ratMean_le (l : List ℚ) (hne : l ≠ []) (M : ℚ) (h : ∀ x ∈ l, x ≤ M) :
    ratMean l ≤ M := by
  have hn : (0 : ℚ) < l.length := by
    exact_mod_cast List.length_pos.mpr hne
  rw [ratMean, div_le_iff₀ hn]
  calc l.sum ≤ l.length • M := List.sum_le_card_nsmul l M h
    _ = M * l.length := by rw [nsmul_eq_mul]; ring

theorem getD_mem (l : List ℚ) (i : ℕ) (hi : i < l.length) : l.getD i 0 ∈ l := by
  rw [List.getD_eq_getElem?_getD, List.getElem?_eq_getElem hi]
  exact List.getElem_mem hi

theorem specMedian_between (l : List ℚ) (hne : l ≠ []) (m M : ℚ)
    (hm : ∀ x ∈ l, m ≤ x) (hM : ∀ x ∈ l, x ≤ M) :
    m ≤ specMedian l ∧ specMedian l ≤ M := by
  have h0 : 0 < l.length := List.length_pos.mpr hne
  have hperm := List.perm_insertionSort qle l
  have htlen : (List.insertionSort qle l).length = l.length := hperm.length_eq
  have hbounds : ∀ i, i < l.length →
      m ≤ (List.insertionSort qle l).getD i 0 ∧ (List.insertionSort qle l).getD i 0 ≤ M := by
    intro i hi
    have hmem : (List.insertionSort qle l).getD i 0 ∈ l :=
      hperm.subset (getD_mem _ i (by omega))
    exact ⟨hm _ hmem, hM _ hmem⟩
  simp only [specMedian]
  by_cases hpar : l.length % 2 = 1
  · rw [if_pos hpar]
    exact hbounds (l.length / 2) (by omega)
  · rw [if_neg hpar]
    have h₁ := hbounds (l.length / 2 - 1) (by omega)
    have h₂ := hbounds (l.length / 2) (by omega)
    constructor <;> [linarith [h₁.1, h₂.1]; linarith [h₁.2, h₂.2]]

/-- Unfolding of a successful `fieldStats` call. -/
theorem fieldStats_eq {f : Field} {data : List RecData} {s : Summary}
    (hs : fieldStats f data = some s) :
    f.type = FieldType.number ∧ 0 < (includedValues f.name data).length ∧
      s = summarize (includedValues f.name data) := by
  by_cases h1 : f.type = FieldType.number
  · by_cases h2 : 0 < (includedValues f.name data).length
    · refine ⟨h1, h2, ?_⟩
      simp only [fieldStats, h1, if_true, h2] at hs
      exact (Option.some.injEq _ _ ▸ hs).symm
    · simp only [fieldStats, h1, if_true, h2, if_false] at hs
      exact absurd hs (by simp)
  · simp only [fieldStats, h1, if_false] at hs
    exact absurd hs (by simp)

/-! ## Concrete instances used by witnesses and counterexamples -/

/-- A numeric field named `age`, as in the spec's scenarios. -/
def ageField : Field := { name := "age", type := FieldType.number, required := true }

/-- A record supplying the number `q` for `age`. -/
def recAge (q : ℚ) : RecData := [("age", JSVal.num (JSNum.fin q))]

def dataAges : List RecData := [recAge 10, recAge 20, recAge 30]

def data1234 : List RecData := [recAge 1, recAge 2, recAge 3, recAge 4]

def dataInfs : List RecData :=
  [[("age", JSVal.str "Infinity")], [("age", JSVal.str "-Infinity")]]

def data12abc : List RecData := [[("age", JSVal.str "12abc")]]

def dataInfinity : List RecData := [[("age", JSVal.str "Infinity")]]

/-- The spec's select-field scenario. -/
def rankField : Field :=
  { name := "rank", type := FieldType.select, options := some ["low", "high"], required := true }

/-- The spec's required-number scenario. -/
def scoreField : Field := { name := "score", type := FieldType.number, required := true }

/-- A record whose `age` value is the non-numeric string `"oops"`. -/
def recOops : RecData := [("age", JSVal.str "oops")]

/-- Two required fields, to exercise multiple simultaneous failures. -/
def twoReq : List Field :=
  [{ name := "a", type := FieldType.number, required := true },
   { name := "b", type := FieldType.number, required := true }]

/-! ## Claims -/

/-- C1: for every numeric field with at least one usable value (here:
whose included values are the finite rationals `qs`), the `variance`
reported by the statistics computation equals the population variance
of the included values — the mean of squared deviations from their
arithmetic mean, dividing by `n`, not `n - 1`. -/
theorem c1_variance_is_population (f : Field) (data : List RecData) (qs : List ℚ)
    (s : Summary) (hvals : includedValues f.name data = qs.map JSNum.fin)
    (hs : fieldStats f data = some s) :
    s.variance = JSNum.fin (popVariance qs) := by
  obtain ⟨-, hpos, hsum⟩ := fieldStats_eq hs
  have hne : qs ≠ [] := by
    intro h
    rw [h] at hvals
    rw [hvals] at hpos
    simp at hpos
  rw [hsum, hvals, summarize_map_fin qs hne]

/-- Witness for C1 at the spec's scenario 1: ages 10, 20, 30 give
population variance 200/3 (≈ 66.67). -/
theorem c1_variance_is_population_witness :
    includedValues ageField.name dataAges = [(10 : ℚ), 20, 30].map JSNum.fin ∧
    ∃ s, fieldStats ageField dataAges = some s ∧
      s.variance = JSNum.fin (popVariance [10, 20, 30]) ∧
      s.variance = JSNum.fin (200 / 3) := by
  refine ⟨by with_unfolding_all rfl, summarize (includedValues ageField.name dataAges),
    by with_unfolding_all rfl, ?_, by with_unfolding_all rfl⟩
  exact c1_variance_is_population ageField dataAges [10, 20, 30] _
    (by with_unfolding_all rfl) (by with_unfolding_all rfl)

/-- C2: the reported median is the middle element of the ascending sort
for odd counts, and the mean of the two middle elements (0-based
indices `n/2 - 1` and `n/2`) for even counts; in particular the values
`[1,2,3,4]` yield median `2.5`. -/
theorem c2_median_rule :
    (∀ (f : Field) (data : List RecData) (qs : List ℚ) (s : Summary),
        includedValues f.name data = qs.map JSNum.fin →
        fieldStats f data = some s →
        s.median = JSNum.fin (specMedian qs)) ∧
    (fieldStats ageField data1234).map Summary.median = some (JSNum.fin (5 / 2)) := by
  constructor
  · intro f data qs s hvals hs
    obtain ⟨-, hpos, hsum⟩ := fieldStats_eq hs
    have hne : qs ≠ [] := by
      intro h
      rw [h] at hvals
      rw [hvals] at hpos
      simp at hpos
    rw [hsum, hvals, summarize_map_fin qs hne]
  · with_unfolding_all rfl

/-- Witness for C2 at the even-count scenario `[1,2,3,4]`:
`specMedian [1,2,3,4] = 5/2`, and the pipeline reports it. -/
theorem c2_median_rule_witness :
    specMedian [1, 2, 3, 4] = 5 / 2 ∧
    ∃ s, fieldStats ageField data1234 = some s ∧
      s.median = JSNum.fin (specMedian [1, 2, 3, 4]) := by
  refine ⟨by with_unfolding_all rfl,
    summarize (includedValues ageField.name data1234), by with_unfolding_all rfl, ?_⟩
  exact c2_median_rule.1 ageField data1234 [1, 2, 3, 4] _
    (by with_unfolding_all rfl) (by with_unfolding_all rfl)

/-- C3: a record whose value for a numeric field is missing or a
non-numeric string (anything whose `parseFloat` is NaN) is silently
excluded — it contributes nothing to that field's statistics, wherever
it occurs in the record list, and the computation is total, so its
presence never causes a failure. -/
theorem c3_silent_exclusion (f : Field) (d₁ d₂ : List RecData) (r : RecData)
    (h : (parseFloat (getProp r f.name)).isNaN = true) :
    fieldStats f (d₁ ++ r :: d₂) = fieldStats f (d₁ ++ d₂) := by
  have hv : includedValues f.name (d₁ ++ r :: d₂) = includedValues f.name (d₁ ++ d₂) := by
    simp only [includedValues, List.map_append, List.filter_append, List.map_cons,
      List.filter_cons, h]
    simp
  simp only [fieldStats, hv]

/-- Witness for C3 at the spec's scenario 2: `[5, "oops", 15]` gives the
same statistics for `age` as `[5, 15]` (count 2, mean 10). -/
theorem c3_silent_exclusion_witness :
    (parseFloat (getProp recOops ageField.name)).isNaN = true ∧
    fieldStats ageField ([recAge 5] ++ recOops :: [recAge 15]) =
      fieldStats ageField ([recAge 5] ++ [recAge 15]) ∧
    (fieldStats ageField ([recAge 5] ++ [recAge 15])).map
        (fun s => (s.count, s.mean)) = some (2, JSNum.fin 10) := by
  refine ⟨by with_unfolding_all rfl, ?_, by with_unfolding_all rfl⟩
  exact c3_silent_exclusion ageField [recAge 5] [recAge 15] recOops
    (by with_unfolding_all rfl)

/-- A field with no usable values produces no summary. -/
theorem fieldStats_none (f : Field) (data : List RecData)
    (h : includedValues f.name data = []) : fieldStats f data = none := by
  by_cases ht : f.type = FieldType.number
  · simp [fieldStats, ht, h]
  · simp [fieldStats, ht]

/-- C4: a numeric field for which zero records supply a usable value is
entirely absent from the result mapping (not mapped to zero or null);
consequently an empty record set, or a schema with no numeric fields,
yields an empty mapping rather than an error. -/
theorem c4_omission :
    (∀ (fields : List Field) (data : List RecData) (nm : String),
        includedValues nm data = [] →
        statLookup (calculateStatistics data fields) nm = none) ∧
    (∀ fields : List Field, calculateStatistics [] fields = []) ∧
    (∀ (fields : List Field) (data : List RecData),
        (∀ f ∈ fields, f.type ≠ FieldType.number) →
        calculateStatistics data fields = []) := by
  refine ⟨?_, ?_, ?_⟩
  · intro fields data nm h
    induction fields with
    | nil => rfl
    | cons f fs ih =>
        simp only [calculateStatistics, List.filterMap_cons] at ih ⊢
        by_cases hname : f.name = nm
        · rw [fieldStats_none f data (by rw [hname]; exact h)]
          exact ih
        · cases hfs : fieldStats f data with
          | none => exact ih
          | some s =>
              have hbeq : (f.name == nm) = false := by
                simpa using hname
              show statLookup ((f.name, s) ::
                List.filterMap (fun field =>
                  Option.map (fun t => (field.name, t)) (fieldStats field data)) fs) nm = none
              simpa [statLookup, hbeq] using ih
  · intro fields
    induction fields with
    | nil => rfl
    | cons f fs ih =>
        simp only [calculateStatistics, List.filterMap_cons] at ih ⊢
        rw [fieldStats_none f [] rfl]
        exact ih
  · intro fields data
    induction fields with
    | nil => intro _; rfl
    | cons f fs ih =>
        intro hall
        simp only [calculateStatistics, List.filterMap_cons] at ih ⊢
        have ht : f.type ≠ FieldType.number := hall f (List.mem_cons_self f fs)
        simp only [fieldStats, if_neg ht]
        exact ih fun g hg => hall g (List.mem_cons_of_mem f hg)

/-- Witness for C4: a record whose `age` is the non-numeric `"oops"`
leaves `age` with no usable values, so `age` is absent from the result;
an empty record set gives the empty mapping. -/
theorem c4_omission_witness :
    includedValues "age" [recOops] = [] ∧
    statLookup (calculateStatistics [recOops] [ageField]) "age" = none ∧
    calculateStatistics [] [ageField] = [] := by
  refine ⟨by with_unfolding_all rfl, ?_, c4_omission.2.1 [ageField]⟩
  exact c4_omission.1 [ageField] [recOops] "age" (by with_unfolding_all rfl)

/-- C8 counterexample: with the records `{age: "Infinity"}` and
`{age: "-Infinity"}` the field is present with count 2, but its mean
and median are NaN, so `min ≤ mean` and `min ≤ median` are both false —
the claim fails as stated. -/
theorem c8_counterexample :
    (fieldStats ageField dataInfs).map
        (fun s => (s.count, jsLe s.min s.median, jsLe s.min s.mean)) =
      some (2, false, false) := by
  with_unfolding_all rfl

/-- C8 (amended): whenever every included value is finite, the reported
values satisfy `min ≤ median ≤ max` and `min ≤ mean ≤ max`; with
non-finite included values the mean or median can be NaN, for which the
comparisons fail. -/
theorem c8_reported_bounds (f : Field) (data : List RecData) (qs : List ℚ)
    (s : Summary) (hvals : includedValues f.name data = qs.map JSNum.fin)
    (hs : fieldStats f data = some s) :
    jsLe s.min s.median ∧ jsLe s.median s.max ∧
      jsLe s.min s.mean ∧ jsLe s.mean s.max := by
  obtain ⟨-, hpos, hsum⟩ := fieldStats_eq hs
  have hne : qs ≠ [] := by
    intro h
    rw [h] at hvals
    rw [hvals] at hpos
    simp at hpos
  rw [hvals] at hsum
  rw [summarize_map_fin qs hne] at hsum
  subst hsum
  have hmem : ∀ x ∈ qs, x ∈ List.insertionSort qle qs := fun x hx =>
    (List.perm_insertionSort qle qs).mem_iff.mpr hx
  have hm : ∀ x ∈ qs, ratMinL (List.insertionSort qle qs) ≤ x := fun x hx =>
    ratMinL_le _ x (hmem x hx)
  have hM : ∀ x ∈ qs, x ≤ ratMaxL (List.insertionSort qle qs) := fun x hx =>
    le_ratMaxL _ x (hmem x hx)
  have hmed := specMedian_between qs hne _ _ hm hM
  have hmean₁ := le_ratMean qs hne _ hm
  have hmean₂ := ratMean_le qs hne _ hM
  refine ⟨?_, ?_, ?_, ?_⟩ <;> simp only [jsLe_fin, decide_eq_true_eq]
  · exact hmed.1
  · exact hmed.2
  · exact hmean₁
  · exact hmean₂

/-- Witness for the amended C8 at ages 10, 20, 30. -/
theorem c8_reported_bounds_witness :
    ∃ s, fieldStats ageField dataAges = some s ∧
      (jsLe s.min s.median ∧ jsLe s.median s.max ∧
        jsLe s.min s.mean ∧ jsLe s.mean s.max) := by
  refine ⟨summarize (includedValues ageField.name dataAges), by with_unfolding_all rfl, ?_⟩
  exact c8_reported_bounds ageField dataAges [10, 20, 30] _
    (by with_unfolding_all rfl) (by with_unfolding_all rfl)

/-- The summary depends only on the multiset of values. -/
theorem summarize_perm {v₁ v₂ : List JSNum} (h : v₁.Perm v₂) :
    summarize v₁ = summarize v₂ := by
  simp only [summarize]
  rw [insertionSort_eq_of_perm h, h.length_eq]

/-- C9: permuting the record sequence changes no summary value — the
whole result mapping is unchanged (`standardDeviation`, being
`Math.sqrt` of the unchanged `variance`, is unchanged as well). -/
theorem c9_order_independent (fields : List Field) (d₁ d₂ : List RecData)
    (h : d₁.Perm d₂) :
    calculateStatistics d₁ fields = calculateStatistics d₂ fields := by
  have hfs : ∀ f : Field, fieldStats f d₁ = fieldStats f d₂ := by
    intro f
    have hv : (includedValues f.name d₁).Perm (includedValues f.name d₂) :=
      (h.map fun item => parseFloat (getProp item f.name)).filter _
    by_cases ht : f.type = FieldType.number
    · simp only [fieldStats, ht, if_true, hv.length_eq, summarize_perm hv]
    · simp only [fieldStats, ht, if_false]
  have harg : (fun field => Option.map (fun s => (field.name, s)) (fieldStats field d₁)) =
      fun field => Option.map (fun s => (field.name, s)) (fieldStats field d₂) :=
    funext fun field => by rw [hfs field]
  simp only [calculateStatistics]
  rw [harg]

/-- Witness for C9: swapping two records leaves the statistics object
unchanged. -/
theorem c9_order_independent_witness :
    ([recAge 20, recAge 10] : List RecData).Perm [recAge 10, recAge 20] ∧
    calculateStatistics [recAge 20, recAge 10] [ageField] =
      calculateStatistics [recAge 10, recAge 20] [ageField] :=
  ⟨List.Perm.swap (recAge 10) (recAge 20) [],
   c9_order_independent [ageField] [recAge 20, recAge 10] [recAge 10, recAge 20]
     (List.Perm.swap (recAge 10) (recAge 20) [])⟩

/-- C10: a record's value for a numeric field is included exactly when
`parseFloat` of it is not NaN; consequently `"12abc"` contributes its
parsed prefix 12 (count 1, mean 12), and `"Infinity"` is included
rather than treated as absent (count 1, infinite min/max/mean). -/
theorem c10_parseFloat_inclusion :
    (∀ (nm : String) (r : RecData) (d : List RecData),
        includedValues nm (r :: d) =
          if (parseFloat (getProp r nm)).isNaN then includedValues nm d
          else parseFloat (getProp r nm) :: includedValues nm d) ∧
    fieldStats ageField data12abc =
      some { count := 1, mean := .fin 12, median := .fin 12, min := .fin 12,
             max := .fin 12, variance := .fin 0 } ∧
    fieldStats ageField dataInfinity =
      some { count := 1, mean := .inf false, median := .inf false, min := .inf false,
             max := .inf false, variance := .nan } := by
  refine ⟨?_, by with_unfolding_all rfl, by with_unfolding_all rfl⟩
  intro nm r d
  simp only [includedValues, List.map_cons, List.filter_cons]
  by_cases h : (parseFloat (getProp r nm)).isNaN
  · simp [h]
  · simp [h]

/-- C5 counterexample: with two required fields `a` and `b` and an empty
submission both fields fail, but `handleSubmit` aborts at the first and
reports only `"a"` — the caller does not receive the complete set of
per-field failures. -/
theorem c5_counterexample :
    handleSubmit twoReq [] = some "a" ∧
    specFailingFields twoReq [] = ["a", "b"] := by
  exact ⟨by with_unfolding_all rfl, by with_unfolding_all rfl⟩

/-- C5 (amended): if any field fails the required check, the submission
is rejected, but the caller is told only the first failing field (the
loop returns at the first failure); acceptance holds exactly when no
field fails.  The server endpoint performs no further validation. -/
theorem c5_first_failure_only (fields : List Field) (formData : RecData) :
    handleSubmit fields formData =
      ((fields.filter fun f =>
          f.required && !truthy (getProp formData f.name)).head?).map Field.name ∧
    (handleSubmit fields formData = none ↔ specFailingFields fields formData = []) := by
  induction fields with
  | nil => simp [handleSubmit, specFailingFields]
  | cons f fs ih =>
      by_cases hc : (f.required && !truthy (getProp formData f.name)) = true
      · simp [handleSubmit, hc, List.filter_cons, specFailingFields]
      · constructor
        · simpa [handleSubmit, hc, List.filter_cons] using ih.1
        · simp only [specFailingFields] at ih ⊢
          simpa [handleSubmit, hc, List.filter_cons] using ih.2

/-- C6 counterexample: the field `{rank, select, options: [low, high],
required}` and the submission `{rank: "medium"}` — `"medium"` is not
among the options, yet validation accepts the submission (no
`InvalidOption` failure exists anywhere in the code). -/
theorem c6_counterexample :
    rankField.options = some ["low", "high"] ∧
    handleSubmit [rankField] [("rank", JSVal.str "medium")] = none := by
  exact ⟨rfl, by with_unfolding_all rfl⟩

/-- C6 (amended): validation never consults a select field's `options`:
the outcome is unchanged under any replacement of the options, and a
select field is accepted exactly when it is not required or its
supplied value is truthy (the options constrain only the UI dropdown). -/
theorem c6_options_ignored (f : Field) (d : RecData) (opts : Option (List String))
    (hf : f.type = FieldType.select) :
    handleSubmit [f] d = handleSubmit [{ f with options := opts }] d ∧
    (handleSubmit [f] d = none ↔
      (f.required = false ∨ truthy (getProp d f.name) = true)) := by
  constructor
  · rfl
  · by_cases hr : f.required <;> by_cases ht : truthy (getProp d f.name) <;>
      simp [handleSubmit, hr, ht]

/-- Witness for the amended C6: `{rank: "medium"}` is accepted against
`rankField` no matter what the options are. -/
theorem c6_options_ignored_witness :
    handleSubmit [rankField] [("rank", JSVal.str "medium")] =
      handleSubmit [{ rankField with options := some ["low"] }]
        [("rank", JSVal.str "medium")] ∧
    handleSubmit [rankField] [("rank", JSVal.str "medium")] = none :=
  ⟨(c6_options_ignored rankField [("rank", JSVal.str "medium")] (some ["low"]) rfl).1,
   (c6_options_ignored rankField [("rank", JSVal.str "medium")] (some ["low"]) rfl).2.mpr
     (Or.inr (by with_unfolding_all rfl))⟩

/-- C7 counterexample: the required number field `score` with supplied
value `0` is rejected (`0` is JavaScript-falsy), though the claim says
a present, non-empty value such as the number 0 passes. -/
theorem c7_counterexample :
    handleSubmit [scoreField] [("score", JSVal.num (JSNum.fin 0))] = some "score" := by
  with_unfolding_all rfl

/-- C7 (amended): a required field fails exactly when its supplied value
is JavaScript-falsy — missing, empty string, NaN, or the number 0; in
particular the number 0 does not pass the required check. -/
theorem c7_required_is_truthiness (f : Field) (d : RecData) (hreq : f.required = true) :
    handleSubmit [f] d = some f.name ↔ truthy (getProp d f.name) = false := by
  by_cases ht : truthy (getProp d f.name) <;> simp [handleSubmit, hreq, ht]

/-- Witness for the amended C7: validating `{}` against the required
`score` field fails, naming `score` (the spec's scenario 4). -/
theorem c7_required_is_truthiness_witness :
    scoreField.required = true ∧ handleSubmit [scoreField] [] = some "score" :=
  ⟨rfl, (c7_required_is_truthiness scoreField [] rfl).mpr (by with_unfolding_all rfl)⟩

end StatsHelper
